import Mathlib

/-!
Formal model of the jsonfile Python module (src/jsonfile.py).

Python values that can live in a tracked JSON tree are modelled by `Jsonfile.PyVal`;
dictionaries are association lists in insertion order, mirroring CPython dicts.
Mutable aliasing of the Python object graph is modelled with an explicit heap of
cells (`Jsonfile.Sys.heap`): a `JSONFileRoot` holds the cell of its `_data`
attribute, and passing `self._data` around copies the cell index, exactly like
passing an object reference in Python.  The filesystem is an association list of
paths to file contents together with counters of directory-creation and
file-write operations, so that "a write happened" is observable even when the
written text is unchanged.  The JSON serializer (`json.dumps` / `json.load`) is
an external black box per the specification and is passed in as a function
argument (`dumps`, `loads`).
-/

namespace Jsonfile

/-- Python dict keys used by the module: integers and strings (the key kinds the
specification and the module exercise). -/
inductive PyKey where
  | kInt (n : Int)
  | kStr (s : String)
deriving DecidableEq, Repr

/-- JSON-compatible Python values.  Objects are insertion-ordered association
lists (CPython dict order); keys may be non-string before normalization. -/
inductive PyVal where
  | null
  | bool (b : Bool)
  | int (n : Int)
  | str (s : String)
  | arr (xs : List PyVal)
  | obj (kvs : List (PyKey × PyVal))

/-- Python `str(key)` on the modelled key kinds. -/
def pyKeyStr : PyKey → String
  | .kInt n => toString n
  | .kStr s => s

/-- Lookup in a CPython-style dict (first — and only — entry with that key). -/
def dictGet : List (PyKey × PyVal) → PyKey → Option PyVal
  | [], _ => none
  | (k2, v) :: rest, k => if k2 = k then some v else dictGet rest k

/-- Replace the value stored at an existing key, keeping its position
(CPython `d[k] = v` on a present key). -/
def dictSet : List (PyKey × PyVal) → PyKey → PyVal → List (PyKey × PyVal)
  | [], _, _ => []
  | (k2, v2) :: rest, k, v =>
    if k2 = k then (k2, v) :: rest else (k2, v2) :: dictSet rest k v

/-- CPython `d[k] = v`: replace in place when the key exists, else append at the
end (insertion order). -/
def dictInsert (kvs : List (PyKey × PyVal)) (k : PyKey) (v : PyVal) :
    List (PyKey × PyVal) :=
  if (dictGet kvs k).isSome then dictSet kvs k v else kvs ++ [(k, v)]

/-- CPython `del d[k]` on a present key: drop the entry. -/
def dictRemove : List (PyKey × PyVal) → PyKey → List (PyKey × PyVal)
  | [], _ => []
  | (k2, v2) :: rest, k => if k2 = k then rest else (k2, v2) :: dictRemove rest k

mutual

/-- `JSONFileBase._inputvalue` (src/jsonfile.py lines 29-38): mappings are
rebuilt with stringified keys and recursively normalized values, strings pass
through, sequences are rebuilt element-wise, every other scalar passes through. -/
def inputvalue : PyVal → PyVal
  | .null => .null
  | .bool b => .bool b
  | .int n => .int n
  | .str s => .str s
  | .arr xs => .arr (inputvalueList xs)
  | .obj kvs => .obj (inputvalueObj [] kvs)

/-- Element-wise normalization of a list (the list comprehension in
`_inputvalue`). -/
def inputvalueList : List PyVal → List PyVal
  | [] => []
  | x :: xs => inputvalue x :: inputvalueList xs

/-- The dict comprehension in `_inputvalue`, built by successive insertion so
that stringified-key collisions are last-write-wins as in a CPython dict
comprehension. -/
def inputvalueObj (acc : List (PyKey × PyVal)) :
    List (PyKey × PyVal) → List (PyKey × PyVal)
  | [] => acc
  | (k, v) :: rest =>
    inputvalueObj (dictInsert acc (.kStr (pyKeyStr k)) (inputvalue v)) rest

end

/-- Exceptions raised by the module or by the underlying containers / standard
library; one constructor per Python exception class that the modelled code can
surface. -/
inductive Err where
  | keyError
  | indexError
  | typeError
  | attributeError
  | valueError
  | fileNotFound
  | jsonDecodeError
  | assertionError
  | invalidPath
deriving DecidableEq, Repr

/-- One step of the access path from a root's owned tree down to the live
subtree a proxy wraps: a list index or a dict key. -/
inductive Step where
  | idx (i : Nat)
  | key (k : PyKey)
deriving DecidableEq, Repr

/-- Read the live subtree addressed by a path (a proxy's `_data` reference). -/
def getSub : List Step → PyVal → Option PyVal
  | [], t => some t
  | .idx i :: ps, t =>
    match t with
    | .arr xs => (xs[i]?).bind (getSub ps)
    | _ => none
  | .key k :: ps, t =>
    match t with
    | .obj kvs => (dictGet kvs k).bind (getSub ps)
    | _ => none

/-- Replace the subtree addressed by a path (identity on invalid paths, which
never arise for a live proxy). -/
def setSub : List Step → PyVal → PyVal → PyVal
  | [], _, v => v
  | .idx i :: ps, t, v =>
    match t with
    | .arr xs =>
      match xs[i]? with
      | some x => .arr (xs.set i (setSub ps x v))
      | none => .arr xs
    | _ => t
  | .key k :: ps, t, v =>
    match t with
    | .obj kvs =>
      match dictGet kvs k with
      | some x => .obj (dictSet kvs k (setSub ps x v))
      | none => .obj kvs
    | _ => t

/-- Apply an in-place container operation to the live subtree addressed by a
path, returning the updated whole tree together with the exception the
operation raised, if any.  `Err.invalidPath` marks states a live proxy can
never reach (dangling reference). -/
def modifyAt (f : PyVal → PyVal × Option Err) : List Step → PyVal → PyVal × Option Err
  | [], t => f t
  | .idx i :: ps, t =>
    match t with
    | .arr xs =>
      match xs[i]? with
      | some x =>
        let r := modifyAt f ps x
        (.arr (xs.set i r.1), r.2)
      | none => (t, some .invalidPath)
    | _ => (t, some .invalidPath)
  | .key k :: ps, t =>
    match t with
    | .obj kvs =>
      match dictGet kvs k with
      | some x =>
        let r := modifyAt f ps x
        (.obj (dictSet kvs k r.1), r.2)
      | none => (t, some .invalidPath)
    | _ => (t, some .invalidPath)

/-- Filesystem: file contents by path, plus counters of directory-creation and
file-write operations so that redundant writes are observable. -/
structure FS where
  files : List (String × String)
  mkdirs : Nat
  writes : Nat
deriving DecidableEq, Repr

/-- Lookup of a path in the modelled filesystem. -/
def fsGet : List (String × String) → String → Option String
  | [], _ => none
  | (p2, c) :: rest, p => if p2 = p then some c else fsGet rest p

/-- Store file contents under a path (overwrite or create). -/
def fsSet : List (String × String) → String → String → List (String × String)
  | [], p, c => [(p, c)]
  | (p2, c2) :: rest, p, c =>
    if p2 = p then (p2, c) :: rest else (p2, c2) :: fsSet rest p c

/-- `path.is_file()` / reading: contents of the file at a path, if present. -/
def fsRead (fs : FS) (p : String) : Option String := fsGet fs.files p

/-- The world the module operates in: a heap of Python object graphs (one cell
per object a root's `_data` attribute can reference) and the filesystem. -/
structure Sys where
  heap : List PyVal
  fs : FS

/-- `JSONFileRoot`: its `_data` attribute is either the ellipsis no-data
sentinel (`none`) or a reference to a heap cell; plus the path and the
autosave flag.  The dump/load keyword options live in the black-box `dumps` /
`loads` functions passed to the operations. -/
structure MRoot where
  cell : Option Nat
  path : String
  autosave : Bool
deriving DecidableEq, Repr

/-- Allocate a fresh object graph on the heap, returning its cell. -/
def alloc (sys : Sys) (v : PyVal) : Sys × Nat :=
  ({ sys with heap := sys.heap ++ [v] }, sys.heap.length)

/-- The tree currently owned by a root (`self._data` dereferenced). -/
def treeOf (sys : Sys) (r : MRoot) : Option PyVal :=
  r.cell.bind fun c => sys.heap[c]?

/-- `JSONFileRoot.save` (lines 140-148): `json.dumps(self._data)` first — it
raises `TypeError` when `_data` is the ellipsis sentinel, before any directory
creation or file write; on success the parent directories are ensured
(`mkdirs` counter) and the text reaches `self.path` through the
temp-file-then-`replace` sequence, modelled as one atomic overwrite. -/
def save (dumps : PyVal → String) (sys : Sys) (r : MRoot) : Sys × Option Err :=
  match r.cell with
  | none => (sys, some .typeError)
  | some c =>
    match sys.heap[c]? with
    | none => (sys, some .typeError)
    | some t =>
      let s := dumps t
      ({ sys with
          fs := ⟨fsSet sys.fs.files r.path s, sys.fs.mkdirs + 1, sys.fs.writes + 1⟩ },
        none)

/-- `JSONFileRoot.load` (lines 123-131): `p.is_file()` is recorded, then
`p.stat()` runs unconditionally — it raises `FileNotFoundError` when the path
is absent; with the file present, a non-empty file is deserialized through the
black-box `loads` (`json.load`, which may raise) into a fresh object that
`_data` is rebound to, and an empty file sets `_data` to the ellipsis
sentinel. -/
def load (loads : String → Except Err PyVal) (sys : Sys) (r : MRoot) :
    Except Err (Sys × MRoot) :=
  let path_exists := (fsRead sys.fs r.path).isSome
  match fsRead sys.fs r.path with
  | none => .error .fileNotFound
  | some s =>
    let path_is_not_empty := s.length ≠ 0
    if path_exists ∧ path_is_not_empty then
      match loads s with
      | .error e => .error e
      | .ok v =>
        let a := alloc sys v
        .ok (a.1, { r with cell := some a.2 })
    else
      .ok (sys, { r with cell := none })

/-- `JSONFileRoot.__init__` (lines 77-89): `self._data = data` stores the
caller's reference unchanged (`dataCell`, `none` for the ellipsis default);
with the default, an existing file is loaded, otherwise nothing happens; with
explicit data and autosave on, `save` runs immediately. -/
def init (dumps : PyVal → String) (loads : String → Except Err PyVal)
    (path : String) (dataCell : Option Nat) (autosave : Bool) (sys : Sys) :
    Except Err (Sys × MRoot) :=
  let r : MRoot := ⟨dataCell, path, autosave⟩
  match dataCell with
  | none =>
    if (fsRead sys.fs path).isSome then load loads sys r else .ok (sys, r)
  | some _ =>
    if autosave then
      match save dumps sys r with
      | (sys1, none) => .ok (sys1, r)
      | (_, some e) => .error e
    else .ok (sys, r)

/-- `JSONFileRoot.copy` (lines 97-109): asserts the new path differs, resolves
the ellipsis-defaulted keyword overrides, and constructs a new root passing
`data=self._data` — the same object reference, not a copy. -/
def copy (dumps : PyVal → String) (loads : String → Except Err PyVal)
    (sys : Sys) (r : MRoot) (path : String) (autosaveArg : Option Bool) :
    Except Err (Sys × MRoot) :=
  if path = r.path then .error .assertionError
  else init dumps loads path r.cell (autosaveArg.getD r.autosave) sys

/-- Setter of `JSONFileRoot.data` (lines 114-118): `_data` is rebound to the
freshly built normalization of the value, then autosave saves
unconditionally. -/
def setData (dumps : PyVal → String) (sys : Sys) (r : MRoot) (v : PyVal) :
    Sys × MRoot × Option Err :=
  let a := alloc sys (inputvalue v)
  let r2 : MRoot := { r with cell := some a.2 }
  if r.autosave then
    let s := save dumps a.1 r2
    (s.1, r2, s.2)
  else (a.1, r2, none)

/-- Shared shape of every mutating proxy method: apply the underlying container
operation to the live subtree the proxy references, and — only when it did not
raise — run `save` when autosave is on.  A raised exception propagates after
the partial effect of the underlying operation (the module has no rollback
logic). -/
def mutate (dumps : PyVal → String) (sys : Sys) (r : MRoot) (p : List Step)
    (f : PyVal → PyVal × Option Err) : Sys × Option Err :=
  match r.cell with
  | none => (sys, some .invalidPath)
  | some c =>
    match sys.heap[c]? with
    | none => (sys, some .invalidPath)
    | some t =>
      let m := modifyAt f p t
      let sys1 : Sys := { sys with heap := sys.heap.set c m.1 }
      match m.2 with
      | some e => (sys1, some e)
      | none =>
        if r.autosave then save dumps sys1 r
        else (sys1, none)

/-- Underlying `dict.__delitem__`: `KeyError` on a missing key leaves the dict
untouched. -/
def objDelitemF (k : PyKey) (t : PyVal) : PyVal × Option Err :=
  match t with
  | .obj kvs =>
    match dictGet kvs k with
    | some _ => (.obj (dictRemove kvs k), none)
    | none => (.obj kvs, some .keyError)
  | _ => (t, some .typeError)

/-- `JSONFileContainer.__delitem__` (lines 163-166) on an object proxy: the key
is passed through raw (no stringification here). -/
def objDelitem (dumps : PyVal → String) (sys : Sys) (r : MRoot) (p : List Step)
    (k : PyKey) : Sys × Option Err :=
  mutate dumps sys r p (objDelitemF k)

/-- Underlying `dict.__setitem__` with the stringified key and normalized value
of `JSONFileObject.__setitem__` (lines 370-372). -/
def objSetitemF (k : PyKey) (v : PyVal) (t : PyVal) : PyVal × Option Err :=
  match t with
  | .obj kvs => (.obj (dictInsert kvs (.kStr (pyKeyStr k)) (inputvalue v)), none)
  | _ => (t, some .typeError)

/-- `JSONFileObject.__setitem__`: stringify the key, normalize the value, store,
then autosave. -/
def objSetitem (dumps : PyVal → String) (sys : Sys) (r : MRoot) (p : List Step)
    (k : PyKey) (v : PyVal) : Sys × Option Err :=
  mutate dumps sys r p (objSetitemF k v)

/-- Underlying `list.__setitem__` reached through the inherited
`JSONFileContainer.__setitem__` (lines 194-197): the value is stored raw —
no `_inputvalue` on this code path. -/
def arrSetitemF (i : Nat) (v : PyVal) (t : PyVal) : PyVal × Option Err :=
  match t with
  | .arr xs =>
    if i < xs.length then (.arr (xs.set i v), none) else (t, some .indexError)
  | _ => (t, some .typeError)

/-- Index assignment on an array proxy (inherited `__setitem__`). -/
def arrSetitem (dumps : PyVal → String) (sys : Sys) (r : MRoot) (p : List Step)
    (i : Nat) (v : PyVal) : Sys × Option Err :=
  mutate dumps sys r p (arrSetitemF i v)

/-- Underlying `list.append` of the normalized item
(`JSONFileArray.append`, lines 275-278). -/
def appendF (v : PyVal) (t : PyVal) : PyVal × Option Err :=
  match t with
  | .arr xs => (.arr (xs ++ [inputvalue v]), none)
  | _ => (t, some .typeError)

/-- `JSONFileArray.append`. -/
def arrAppend (dumps : PyVal → String) (sys : Sys) (r : MRoot) (p : List Step)
    (v : PyVal) : Sys × Option Err :=
  mutate dumps sys r p (appendF v)

/-- Underlying `list.insert` of the normalized item
(`JSONFileArray.insert`, lines 291-294); CPython clamps an over-large index. -/
def insertF (i : Nat) (v : PyVal) (t : PyVal) : PyVal × Option Err :=
  match t with
  | .arr xs => (.arr (xs.take i ++ inputvalue v :: xs.drop i), none)
  | _ => (t, some .typeError)

/-- `JSONFileArray.insert`. -/
def arrInsert (dumps : PyVal → String) (sys : Sys) (r : MRoot) (p : List Step)
    (i : Nat) (v : PyVal) : Sys × Option Err :=
  mutate dumps sys r p (insertF i v)

/-- CPython `list.extend` consuming the lazy generator of
`JSONFileArray.extend` (lines 283-286): each produced item is normalized and
appended one by one; when the iterable raises, the items already consumed stay
appended and the exception propagates. -/
def extendGo (xs : List PyVal) : List (Except Err PyVal) → List PyVal × Option Err
  | [] => (xs, none)
  | .ok v :: rest => extendGo (xs ++ [inputvalue v]) rest
  | .error e :: _ => (xs, some e)

/-- Underlying operation of `JSONFileArray.extend`; the iterable is a list of
either produced items or the exception its `__next__` raises at that point. -/
def extendF (it : List (Except Err PyVal)) (t : PyVal) : PyVal × Option Err :=
  match t with
  | .arr xs =>
    let g := extendGo xs it
    (.arr g.1, g.2)
  | _ => (t, some .typeError)

/-- `JSONFileArray.extend`. -/
def arrExtend (dumps : PyVal → String) (sys : Sys) (r : MRoot) (p : List Step)
    (it : List (Except Err PyVal)) : Sys × Option Err :=
  mutate dumps sys r p (extendF it)

/-- Underlying `list.__iadd__` of `JSONFileArray.__iadd__` (lines 237-240):
`self._data += self._inputvalue(other)`; a normalized sequence extends the
list (a string extends it with its one-character strings), anything else
raises `TypeError` with the list untouched. -/
def iaddF (other : PyVal) (t : PyVal) : PyVal × Option Err :=
  match t with
  | .arr xs =>
    match inputvalue other with
    | .arr ys => (.arr (xs ++ ys), none)
    | .str s => (.arr (xs ++ s.data.map fun c => .str (String.mk [c])), none)
    | _ => (t, some .typeError)
  | _ => (t, some .typeError)

/-- `JSONFileArray.__iadd__`: in-place concatenation, observed by autosave. -/
def arrIadd (dumps : PyVal → String) (sys : Sys) (r : MRoot) (p : List Step)
    (other : PyVal) : Sys × Option Err :=
  mutate dumps sys r p (iaddF other)

/-- `JSONFileArray.__add__` (lines 216-222): raises `AttributeError`
immediately — no mutation, no save. -/
def arrAdd (sys : Sys) (_r : MRoot) (_p : List Step) (_value : PyVal) :
    Sys × Option Err :=
  (sys, some .attributeError)

/-- `JSONFileArray.__mul__` (lines 256-262): raises `AttributeError`
immediately. -/
def arrMul (sys : Sys) (_r : MRoot) (_p : List Step) (_value : PyVal) :
    Sys × Option Err :=
  (sys, some .attributeError)

/-- `JSONFileArray.__rmul__` (lines 267-273): raises `AttributeError`
immediately. -/
def arrRmul (sys : Sys) (_r : MRoot) (_p : List Step) (_value : PyVal) :
    Sys × Option Err :=
  (sys, some .attributeError)

/-- `JSONFileContainer.__getitem__` (lines 181-183) on an object proxy: raw
dict lookup — the key is NOT stringified; `none` models the `KeyError`. -/
def objGetitem (sys : Sys) (r : MRoot) (p : List Step) (k : PyKey) :
    Option PyVal :=
  match treeOf sys r with
  | none => none
  | some t =>
    match getSub p t with
    | some (.obj kvs) => dictGet kvs k
    | _ => none

/-- `JSONFileObject.setdefault` (lines 406-411): try the raw lookup; on
`KeyError`, store the default through `__setitem__` (stringified key, autosave
write), then return the result of a second raw lookup — whose `KeyError`
propagates.  The result is (state, raised exception, returned value). -/
def objSetdefault (dumps : PyVal → String) (sys : Sys) (r : MRoot)
    (p : List Step) (k : PyKey) (default : PyVal) :
    Sys × Option Err × Option PyVal :=
  match objGetitem sys r p k with
  | some v => (sys, none, some v)
  | none =>
    let s := objSetitem dumps sys r p k default
    match s.2 with
    | some e => (s.1, some e, none)
    | none =>
      match objGetitem s.1 r p k with
      | some v => (s.1, none, some v)
      | none => (s.1, some .keyError, none)

/-! ## Supporting lemmas -/

theorem listSetSelf {α : Type} : ∀ (l : List α) (i : Nat) (x : α),
    l[i]? = some x → l.set i x = l
  | [], _, _, h => by simp at h
  | a :: l, 0, x, h => by
    simp only [List.getElem?_cons_zero, Option.some.injEq] at h
    simp [h]
  | _ :: l, i + 1, x, h => by
    simp only [List.getElem?_cons_succ] at h
    simp [listSetSelf l i x h]

theorem listGetSet {α : Type} : ∀ (l : List α) (i : Nat) (x y : α),
    l[i]? = some y → (l.set i x)[i]? = some x
  | [], _, _, _, h => by simp at h
  | _ :: _, 0, _, _, _ => by simp
  | _ :: l, i + 1, x, y, h => by
    simp only [List.getElem?_cons_succ] at h
    simp [listGetSet l i x y h]

theorem listGetAppend {α : Type} : ∀ (l : List α) (x : α),
    (l ++ [x])[l.length]? = some x
  | [], _ => rfl
  | _ :: l, x => by simp [listGetAppend l x]

theorem dictSetSelf : ∀ (kvs : List (PyKey × PyVal)) (k : PyKey) (v : PyVal),
    dictGet kvs k = some v → dictSet kvs k v = kvs
  | [], _, _, h => by simp [dictGet] at h
  | (k2, v2) :: rest, k, v, h => by
    by_cases hk : k2 = k
    · simp [dictGet, hk] at h
      simp [dictSet, hk, h]
    · simp [dictGet, hk] at h
      simp [dictSet, hk, dictSetSelf rest k v h]

theorem dictGetSet : ∀ (kvs : List (PyKey × PyVal)) (k : PyKey) (v w : PyVal),
    dictGet kvs k = some w → dictGet (dictSet kvs k v) k = some v
  | [], _, _, _, h => by simp [dictGet] at h
  | (k2, v2) :: rest, k, v, w, h => by
    by_cases hk : k2 = k
    · simp [dictSet, hk, dictGet]
    · simp [dictGet, hk] at h
      simp [dictSet, hk, dictGet, dictGetSet rest k v w h]

theorem dictGetSetNe : ∀ (kvs : List (PyKey × PyVal)) (k k2 : PyKey) (v : PyVal),
    k2 ≠ k → dictGet (dictSet kvs k v) k2 = dictGet kvs k2
  | [], _, _, _, _ => rfl
  | (k3, v3) :: rest, k, k2, v, hne => by
    by_cases hk : k3 = k
    · subst hk
      have h32 : ¬ k3 = k2 := fun h => hne h.symm
      simp [dictSet, dictGet, h32]
    · simp [dictSet, hk, dictGet, dictGetSetNe rest k k2 v hne]

theorem dictGetAppend : ∀ (kvs : List (PyKey × PyVal)) (k : PyKey) (v : PyVal),
    dictGet kvs k = none → dictGet (kvs ++ [(k, v)]) k = some v
  | [], _, _, _ => by simp [dictGet]
  | (k2, v2) :: rest, k, v, h => by
    by_cases hk : k2 = k
    · simp [dictGet, hk] at h
    · simp [dictGet, hk] at h
      simp [dictGet, hk, dictGetAppend rest k v h]

theorem dictGetAppendNe : ∀ (kvs : List (PyKey × PyVal)) (k k2 : PyKey) (v : PyVal),
    k2 ≠ k → dictGet (kvs ++ [(k, v)]) k2 = dictGet kvs k2
  | [], k, k2, v, hne => by
    have hkk : ¬ k = k2 := fun h => hne h.symm
    simp [dictGet, hkk]
  | (k3, v3) :: rest, k, k2, v, hne => by
    by_cases hk : k3 = k2
    · simp [dictGet, hk]
    · simp [dictGet, hk, dictGetAppendNe rest k k2 v hne]

theorem dictGetInsertSelf (kvs : List (PyKey × PyVal)) (k : PyKey) (v : PyVal) :
    dictGet (dictInsert kvs k v) k = some v := by
  unfold dictInsert
  by_cases h : (dictGet kvs k).isSome
  · simp only [h, if_true]
    obtain ⟨w, hw⟩ := Option.isSome_iff_exists.mp h
    exact dictGetSet kvs k v w hw
  · simp only [h, if_false]
    exact dictGetAppend kvs k v (Option.not_isSome_iff_eq_none.mp h)

theorem dictGetInsertNe (kvs : List (PyKey × PyVal)) (k k2 : PyKey) (v : PyVal)
    (hne : k2 ≠ k) : dictGet (dictInsert kvs k v) k2 = dictGet kvs k2 := by
  unfold dictInsert
  by_cases h : (dictGet kvs k).isSome
  · simp only [h, if_true]
    exact dictGetSetNe kvs k k2 v hne
  · simp only [h, if_false]
    exact dictGetAppendNe kvs k k2 v hne

theorem fsGetSet : ∀ (files : List (String × String)) (p c : String),
    fsGet (fsSet files p c) p = some c
  | [], _, _ => by simp [fsSet, fsGet]
  | (p2, c2) :: rest, p, c => by
    by_cases hp : p2 = p
    · simp [fsSet, hp, fsGet]
    · simp [fsSet, hp, fsGet, fsGetSet rest p c]

theorem setSubSelf : ∀ (ps : List Step) (t sub : PyVal),
    getSub ps t = some sub → setSub ps t sub = t
  | [], t, sub, h => by
    simp only [getSub, Option.some.injEq] at h
    simp [setSub, h]
  | .idx i :: ps, t, sub, h => by
    match t with
    | .arr xs =>
      simp only [getSub] at h
      match hx : xs[i]? with
      | some x =>
        rw [hx] at h
        simp only [Option.some_bind] at h
        simp [setSub, hx, setSubSelf ps x sub h, listSetSelf xs i x hx]
      | none => rw [hx] at h; simp at h
    | .null | .bool _ | .int _ | .str _ | .obj _ => simp [getSub] at h
  | .key k :: ps, t, sub, h => by
    match t with
    | .obj kvs =>
      simp only [getSub] at h
      match hx : dictGet kvs k with
      | some x =>
        rw [hx] at h
        simp only [Option.some_bind] at h
        simp [setSub, hx, setSubSelf ps x sub h, dictSetSelf kvs k x hx]
      | none => rw [hx] at h; simp at h
    | .null | .bool _ | .int _ | .str _ | .arr _ => simp [getSub] at h

theorem getSubSetSub : ∀ (ps : List Step) (t sub v : PyVal),
    getSub ps t = some sub → getSub ps (setSub ps t v) = some v
  | [], _, _, _, _ => rfl
  | .idx i :: ps, t, sub, v, h => by
    match t with
    | .arr xs =>
      simp only [getSub] at h
      match hx : xs[i]? with
      | some x =>
        rw [hx] at h
        simp only [Option.some_bind] at h
        simp only [setSub, hx, getSub]
        rw [listGetSet xs i (setSub ps x v) x hx]
        simp [getSubSetSub ps x sub v h]
      | none => rw [hx] at h; simp at h
    | .null | .bool _ | .int _ | .str _ | .obj _ => simp [getSub] at h
  | .key k :: ps, t, sub, v, h => by
    match t with
    | .obj kvs =>
      simp only [getSub] at h
      match hx : dictGet kvs k with
      | some x =>
        rw [hx] at h
        simp only [Option.some_bind] at h
        simp only [setSub, hx, getSub]
        rw [dictGetSet kvs k (setSub ps x v) x hx]
        simp [getSubSetSub ps x sub v h]
      | none => rw [hx] at h; simp at h
    | .null | .bool _ | .int _ | .str _ | .arr _ => simp [getSub] at h

theorem modifyAtSpec (f : PyVal → PyVal × Option Err) :
    ∀ (ps : List Step) (t sub : PyVal), getSub ps t = some sub →
      modifyAt f ps t = (setSub ps t (f sub).1, (f sub).2)
  | [], t, sub, h => by
    simp only [getSub, Option.some.injEq] at h
    simp [modifyAt, setSub, h]
  | .idx i :: ps, t, sub, h => by
    match t with
    | .arr xs =>
      simp only [getSub] at h
      match hx : xs[i]? with
      | some x =>
        rw [hx] at h
        simp only [Option.some_bind] at h
        simp [modifyAt, hx, setSub, modifyAtSpec f ps x sub h]
      | none => rw [hx] at h; simp at h
    | .null | .bool _ | .int _ | .str _ | .obj _ => simp [getSub] at h
  | .key k :: ps, t, sub, h => by
    match t with
    | .obj kvs =>
      simp only [getSub] at h
      match hx : dictGet kvs k with
      | some x =>
        rw [hx] at h
        simp only [Option.some_bind] at h
        simp [modifyAt, hx, setSub, modifyAtSpec f ps x sub h]
      | none => rw [hx] at h; simp at h
    | .null | .bool _ | .int _ | .str _ | .arr _ => simp [getSub] at h

theorem saveSpec (dumps : PyVal → String) (sys : Sys) (r : MRoot) (c : Nat)
    (t : PyVal) (hc : r.cell = some c) (ht : sys.heap[c]? = some t) :
    save dumps sys r =
      ({ sys with
          fs := ⟨fsSet sys.fs.files r.path (dumps t),
                 sys.fs.mkdirs + 1, sys.fs.writes + 1⟩ }, none) := by
  unfold save
  rw [hc]
  simp [ht]

theorem mutateSpec (dumps : PyVal → String) (sys : Sys) (r : MRoot)
    (p : List Step) (f : PyVal → PyVal × Option Err) (c : Nat) (t sub : PyVal)
    (hc : r.cell = some c) (ht : sys.heap[c]? = some t)
    (hs : getSub p t = some sub) :
    mutate dumps sys r p f =
      (let sys1 : Sys := { sys with heap := sys.heap.set c (setSub p t (f sub).1) }
       match (f sub).2 with
       | some e => (sys1, some e)
       | none => if r.autosave then save dumps sys1 r else (sys1, none)) := by
  unfold mutate
  rw [hc]
  simp only [ht, modifyAtSpec f p t sub hs]

/-- A mutation whose underlying operation raises without touching the container
(`f sub = (sub, some e)`) leaves the whole world unchanged and propagates the
exception: the heap write-back writes the identical tree and `save` is never
reached. -/
theorem mutateRaise (dumps : PyVal → String) (sys : Sys) (r : MRoot)
    (p : List Step) (f : PyVal → PyVal × Option Err) (c : Nat) (t sub : PyVal)
    (e : Err) (hc : r.cell = some c) (ht : sys.heap[c]? = some t)
    (hs : getSub p t = some sub) (hf : f sub = (sub, some e)) :
    mutate dumps sys r p f = (sys, some e) := by
  rw [mutateSpec dumps sys r p f c t sub hc ht hs, hf]
  simp only
  rw [setSubSelf p t sub hs, listSetSelf sys.heap c t ht]

/-- A mutation whose underlying operation succeeds with result `sub2` updates
the live subtree in place and, with autosave on, saves the new whole tree. -/
theorem mutateOk (dumps : PyVal → String) (sys : Sys) (r : MRoot)
    (p : List Step) (f : PyVal → PyVal × Option Err) (c : Nat) (t sub sub2 : PyVal)
    (hc : r.cell = some c) (ht : sys.heap[c]? = some t)
    (hs : getSub p t = some sub) (hf : f sub = (sub2, none)) :
    mutate dumps sys r p f =
      (let sys1 : Sys := { sys with heap := sys.heap.set c (setSub p t sub2) }
       if r.autosave then
         ({ sys1 with
             fs := ⟨fsSet sys.fs.files r.path (dumps (setSub p t sub2)),
                    sys.fs.mkdirs + 1, sys.fs.writes + 1⟩ }, none)
       else (sys1, none)) := by
  rw [mutateSpec dumps sys r p f c t sub hc ht hs, hf]
  simp only
  by_cases ha : r.autosave
  · simp only [ha, if_true]
    exact saveSpec dumps _ r c _ hc
      (listGetSet sys.heap c (setSub p t sub2) t ht)
  · simp [ha]

/-- The tree a root owns after the in-place write-back of a mutation. -/
theorem treeOfSet (sys : Sys) (r : MRoot) (c : Nat) (t t2 : PyVal)
    (hc : r.cell = some c) (ht : sys.heap[c]? = some t) :
    treeOf { sys with heap := sys.heap.set c t2 } r = some t2 := by
  unfold treeOf
  rw [hc]
  exact listGetSet sys.heap c t2 t ht

/-- Dereferencing a root is a heap lookup at its cell. -/
theorem treeOfCell (sys : Sys) (r : MRoot) (c : Nat) (hc : r.cell = some c) :
    treeOf sys r = sys.heap[c]? := by
  unfold treeOf
  rw [hc]
  rfl

/-- `save` never touches the heap (it only serializes and writes the file). -/
theorem saveHeap (dumps : PyVal → String) (sys : Sys) (r : MRoot) :
    (save dumps sys r).1.heap = sys.heap := by
  unfold save
  cases hrc : r.cell with
  | none => rfl
  | some c =>
    cases hh : sys.heap[c]? with
    | none => simp [hh]
    | some t => simp [hh]

/-- The root returned by the `data` setter: `_data` rebound to a fresh cell. -/
theorem setDataRoot (dumps : PyVal → String) (sys : Sys) (r : MRoot) (v : PyVal) :
    (setData dumps sys r v).2.1 = { r with cell := some sys.heap.length } := by
  unfold setData alloc
  by_cases ha : r.autosave <;> simp [ha]

/-- The heap after the `data` setter: the normalized value in a fresh cell. -/
theorem setDataHeap (dumps : PyVal → String) (sys : Sys) (r : MRoot) (v : PyVal) :
    (setData dumps sys r v).1.heap = sys.heap ++ [inputvalue v] := by
  unfold setData alloc
  by_cases ha : r.autosave <;> simp [ha, saveHeap]

/-- Full behaviour of `JSONFileObject.__setitem__` on a live object proxy. -/
theorem objSetitemSpec (dumps : PyVal → String) (sys : Sys) (r : MRoot)
    (p : List Step) (k : PyKey) (v : PyVal) (c : Nat) (t : PyVal)
    (kvs : List (PyKey × PyVal)) (hc : r.cell = some c)
    (ht : sys.heap[c]? = some t) (hs : getSub p t = some (.obj kvs)) :
    objSetitem dumps sys r p k v =
      (let t2 := setSub p t (.obj (dictInsert kvs (.kStr (pyKeyStr k)) (inputvalue v)))
       let sys1 : Sys := { sys with heap := sys.heap.set c t2 }
       if r.autosave then
         ({ sys1 with
             fs := ⟨fsSet sys.fs.files r.path (dumps t2),
                    sys.fs.mkdirs + 1, sys.fs.writes + 1⟩ }, none)
       else (sys1, none)) := by
  exact mutateOk dumps sys r p (objSetitemF k v) c t (.obj kvs)
    (.obj (dictInsert kvs (.kStr (pyKeyStr k)) (inputvalue v))) hc ht hs rfl

/-- The tree owned by the root after a successful mutation: the live subtree
replaced in place, whether or not autosave then wrote the file. -/
theorem mutateTree (dumps : PyVal → String) (sys : Sys) (r : MRoot)
    (p : List Step) (f : PyVal → PyVal × Option Err) (c : Nat)
    (t sub sub2 : PyVal) (hc : r.cell = some c) (ht : sys.heap[c]? = some t)
    (hs : getSub p t = some sub) (hf : f sub = (sub2, none)) :
    treeOf (mutate dumps sys r p f).1 r = some (setSub p t sub2) := by
  rw [mutateOk dumps sys r p f c t sub sub2 hc ht hs hf]
  by_cases ha : r.autosave
  · simp only [ha, if_true]
    exact treeOfSet _ r c t _ hc ht
  · simp only [ha, if_false]
    exact treeOfSet sys r c t _ hc ht

/-- Reading any key through `__getitem__` right after a `__setitem__` on the
same object proxy is a raw lookup in the dict extended at the stringified
key. -/
theorem objGetitemSet (dumps : PyVal → String) (sys : Sys) (r : MRoot)
    (p : List Step) (k k2 : PyKey) (v : PyVal) (c : Nat) (t : PyVal)
    (kvs : List (PyKey × PyVal)) (hc : r.cell = some c)
    (ht : sys.heap[c]? = some t) (hs : getSub p t = some (.obj kvs)) :
    objGetitem (objSetitem dumps sys r p k v).1 r p k2 =
      dictGet (dictInsert kvs (.kStr (pyKeyStr k)) (inputvalue v)) k2 := by
  have htree : treeOf (objSetitem dumps sys r p k v).1 r =
      some (setSub p t (.obj (dictInsert kvs (.kStr (pyKeyStr k)) (inputvalue v)))) := by
    rw [objSetitemSpec dumps sys r p k v c t kvs hc ht hs]
    by_cases ha : r.autosave
    · simp only [ha, if_true]
      exact treeOfSet _ r c t _ hc ht
    · simp only [ha, if_false]
      exact treeOfSet sys r c t _ hc ht
  simp only [objGetitem, htree,
    getSubSetSub p t (.obj kvs)
      (.obj (dictInsert kvs (.kStr (pyKeyStr k)) (inputvalue v))) hs]

/-! ## Claims -/

/-- Claim C3 (code bug): the specified behaviour is that `load()` on a missing
backing file sets the no-data marker without invoking the deserializer, but
`JSONFileRoot.load` calls `p.stat()` unconditionally before its
`path_exists and path_is_not_empty` test, so on a missing file it raises
`FileNotFoundError` instead.  Evaluated here at the failing input (a root over
path "a" with an empty filesystem), together with the two branches that do
behave as claimed: a zero-length file sets the sentinel without calling the
deserializer (the deserializer passed here fails on every input, so reaching
it would not produce `.ok`), and a non-empty file is deserialized into the
owned tree. -/
theorem C3_load_missing_file_raises :
    load (fun _ => .error .jsonDecodeError) ⟨[], ⟨[], 0, 0⟩⟩ ⟨none, "a", true⟩ =
      .error .fileNotFound
    ∧ load (fun _ => .error .jsonDecodeError) ⟨[], ⟨[("a", "")], 0, 0⟩⟩
        ⟨some 0, "a", true⟩ = .ok (⟨[], ⟨[("a", "")], 0, 0⟩⟩, ⟨none, "a", true⟩)
    ∧ load (fun _ => .ok (.int 7)) ⟨[], ⟨[("a", "7")], 0, 0⟩⟩ ⟨none, "a", true⟩ =
      .ok (⟨[.int 7], ⟨[("a", "7")], 0, 0⟩⟩, ⟨some 0, "a", true⟩) :=
  ⟨rfl, rfl, rfl⟩

/-- Claim C10: a root in the no-data state — constructed over a nonexistent
path or over a zero-length file without explicit data — keeps the ellipsis
sentinel, and `save()` on any such root raises the serialization error
(`json.dumps` cannot serialize the sentinel) before any directory creation or
file write, leaving the filesystem — and the whole world — unchanged. -/
theorem C10_save_nodata_raises (dumps : PyVal → String)
    (loads : String → Except Err PyVal) :
    (∀ (sys : Sys) (path : String) (autosave : Bool),
      fsRead sys.fs path = none →
        init dumps loads path none autosave sys = .ok (sys, ⟨none, path, autosave⟩)) ∧
    (∀ (sys : Sys) (path : String) (autosave : Bool),
      fsRead sys.fs path = some "" →
        init dumps loads path none autosave sys = .ok (sys, ⟨none, path, autosave⟩)) ∧
    (∀ (sys : Sys) (r : MRoot), r.cell = none →
        save dumps sys r = (sys, some Err.typeError)) := by
  refine ⟨?_, ?_, ?_⟩
  · intro sys path autosave h
    simp [init, h]
  · intro sys path autosave h
    simp [init, load, h]
  · intro sys r h
    simp [save, h]

/-- Concrete instance of C10: over an empty filesystem, construction without
data yields the no-data root, and saving it raises the serialization error
with the world untouched. -/
theorem C10_witness :
    init (fun _ => "x") (fun _ => .ok .null) "a" none true ⟨[], ⟨[], 0, 0⟩⟩ =
      .ok (⟨[], ⟨[], 0, 0⟩⟩, ⟨none, "a", true⟩) ∧
    save (fun _ => "x") ⟨[], ⟨[], 0, 0⟩⟩ ⟨none, "a", true⟩ =
      (⟨[], ⟨[], 0, 0⟩⟩, some Err.typeError) :=
  ⟨(C10_save_nodata_raises (fun _ => "x") (fun _ => .ok .null)).1
      ⟨[], ⟨[], 0, 0⟩⟩ "a" true rfl,
   (C10_save_nodata_raises (fun _ => "x") (fun _ => .ok .null)).2.2
      ⟨[], ⟨[], 0, 0⟩⟩ ⟨none, "a", true⟩ rfl⟩

/-- Claim C8: `JSONFileObject.__setitem__` stringifies its key, so assignment
with a non-string key `k` stores the normalized value under `str(k)`, and the
operation with key `k` is identical to the operation with key `str(k)` — both
mutate the same slot. -/
theorem C8_setitem_stringifies_key (dumps : PyVal → String) (sys : Sys)
    (r : MRoot) (p : List Step) (k : PyKey) (v : PyVal) (c : Nat) (t : PyVal)
    (kvs : List (PyKey × PyVal)) (hc : r.cell = some c)
    (ht : sys.heap[c]? = some t) (hs : getSub p t = some (.obj kvs)) :
    treeOf (objSetitem dumps sys r p k v).1 r =
      some (setSub p t (.obj (dictInsert kvs (.kStr (pyKeyStr k)) (inputvalue v))))
    ∧ objSetitem dumps sys r p k v =
      objSetitem dumps sys r p (.kStr (pyKeyStr k)) v := by
  constructor
  · rw [objSetitemSpec dumps sys r p k v c t kvs hc ht hs]
    by_cases ha : r.autosave
    · simp only [ha, if_true]
      exact treeOfSet _ r c t _ hc ht
    · simp only [ha, if_false]
      exact treeOfSet sys r c t _ hc ht
  · rfl

/-- Concrete instance of C8: assigning under integer key 7 in an empty object
proxy stores the value under the string key "7", identically to assigning
under "7". -/
theorem C8_witness :
    treeOf (objSetitem (fun _ => "x") ⟨[.obj []], ⟨[], 0, 0⟩⟩
        ⟨some 0, "a", false⟩ [] (.kInt 7) .null).1 ⟨some 0, "a", false⟩ =
      some (.obj [(.kStr "7", .null)])
    ∧ objSetitem (fun _ => "x") ⟨[.obj []], ⟨[], 0, 0⟩⟩
        ⟨some 0, "a", false⟩ [] (.kInt 7) .null =
      objSetitem (fun _ => "x") ⟨[.obj []], ⟨[], 0, 0⟩⟩
        ⟨some 0, "a", false⟩ [] (.kStr "7") .null :=
  C8_setitem_stringifies_key (fun _ => "x") ⟨[.obj []], ⟨[], 0, 0⟩⟩
    ⟨some 0, "a", false⟩ [] (.kInt 7) .null 0 (.obj []) [] rfl rfl rfl

/-- Claim C6: whole-value concatenation (`+`) and repetition (`*`, including
the reflected form) on a tracked array proxy raise `AttributeError`
immediately, leaving the tree and file unchanged, while in-place concatenation
(`+=`) succeeds, appends the normalized elements to the live subtree, and with
autosave on the new whole tree is serialized to the backing file before the
call returns. -/
theorem C6_add_rejected_iadd_tracked (dumps : PyVal → String) (sys : Sys)
    (r : MRoot) (p : List Step) (value : PyVal) :
    arrAdd sys r p value = (sys, some Err.attributeError) ∧
    arrMul sys r p value = (sys, some Err.attributeError) ∧
    arrRmul sys r p value = (sys, some Err.attributeError) ∧
    ∀ (c : Nat) (t : PyVal) (xs ys : List PyVal),
      r.cell = some c → sys.heap[c]? = some t →
      getSub p t = some (.arr xs) → r.autosave = true →
      arrIadd dumps sys r p (.arr ys) =
        (⟨sys.heap.set c (setSub p t (.arr (xs ++ inputvalueList ys))),
          ⟨fsSet sys.fs.files r.path
             (dumps (setSub p t (.arr (xs ++ inputvalueList ys)))),
           sys.fs.mkdirs + 1, sys.fs.writes + 1⟩⟩, none) ∧
      fsRead (arrIadd dumps sys r p (.arr ys)).1.fs r.path =
        some (dumps (setSub p t (.arr (xs ++ inputvalueList ys)))) := by
  refine ⟨rfl, rfl, rfl, ?_⟩
  intro c t xs ys hc ht hs ha
  have hf : iaddF (.arr ys) (.arr xs) = (.arr (xs ++ inputvalueList ys), none) := by
    simp [iaddF, inputvalue]
  have h := mutateOk dumps sys r p (iaddF (.arr ys)) c t (.arr xs)
    (.arr (xs ++ inputvalueList ys)) hc ht hs hf
  have h2 : arrIadd dumps sys r p (.arr ys) =
      (⟨sys.heap.set c (setSub p t (.arr (xs ++ inputvalueList ys))),
        ⟨fsSet sys.fs.files r.path
           (dumps (setSub p t (.arr (xs ++ inputvalueList ys)))),
         sys.fs.mkdirs + 1, sys.fs.writes + 1⟩⟩, none) := by
    unfold arrIadd
    rw [h]
    simp [ha]
  refine ⟨h2, ?_⟩
  rw [h2]
  exact fsGetSet sys.fs.files r.path _

/-- Concrete instance of C6: on a root-level empty array proxy with autosave,
`+` fails with `AttributeError` and an unchanged world, while `+= [1, 2]`
stores the two elements and writes the serialized tree to the file. -/
theorem C6_witness :
    arrAdd ⟨[.arr []], ⟨[], 0, 0⟩⟩ ⟨some 0, "a", true⟩ [] (.arr [.int 1]) =
      (⟨[.arr []], ⟨[], 0, 0⟩⟩, some Err.attributeError) ∧
    arrIadd (fun _ => "x") ⟨[.arr []], ⟨[], 0, 0⟩⟩ ⟨some 0, "a", true⟩ []
        (.arr [.int 1, .int 2]) =
      (⟨[.arr [.int 1, .int 2]], ⟨[("a", "x")], 1, 1⟩⟩, none) ∧
    fsRead (arrIadd (fun _ => "x") ⟨[.arr []], ⟨[], 0, 0⟩⟩ ⟨some 0, "a", true⟩ []
        (.arr [.int 1, .int 2])).1.fs "a" = some "x" := by
  have h := C6_add_rejected_iadd_tracked (fun _ => "x") ⟨[.arr []], ⟨[], 0, 0⟩⟩
    ⟨some 0, "a", true⟩ [] (.arr [.int 1])
  have h2 := h.2.2.2 0 (.arr []) [] [.int 1, .int 2] rfl rfl rfl rfl
  exact ⟨h.1, h2.1, h2.2⟩

/-- Claim C9: key coercion is asymmetric between writes and reads.
`__getitem__` performs a raw lookup, so after `obj[n] = v` with an absent
integer key `n`, reading `obj[n]` raises `KeyError` while `obj[str(n)]`
returns the stored value; consequently `setdefault(n, d)` stores the
normalized default under `str(n)`, performs the autosave write, and then
raises `KeyError` on its read-back instead of returning the stored value. -/
theorem C9_getitem_not_stringified (dumps : PyVal → String) (sys : Sys)
    (r : MRoot) (p : List Step) (n : Int) (v d : PyVal) (c : Nat) (t : PyVal)
    (kvs : List (PyKey × PyVal)) (hc : r.cell = some c)
    (ht : sys.heap[c]? = some t) (hs : getSub p t = some (.obj kvs))
    (hAbs : dictGet kvs (.kInt n) = none) (ha : r.autosave = true) :
    objGetitem (objSetitem dumps sys r p (.kInt n) v).1 r p (.kInt n) = none ∧
    objGetitem (objSetitem dumps sys r p (.kInt n) v).1 r p
      (.kStr (pyKeyStr (.kInt n))) = some (inputvalue v) ∧
    objSetdefault dumps sys r p (.kInt n) d =
      ((objSetitem dumps sys r p (.kInt n) d).1, some Err.keyError, none) ∧
    (objSetitem dumps sys r p (.kInt n) d).1.fs.writes = sys.fs.writes + 1 ∧
    objGetitem (objSetitem dumps sys r p (.kInt n) d).1 r p
      (.kStr (pyKeyStr (.kInt n))) = some (inputvalue d) := by
  have hne : (PyKey.kInt n) ≠ .kStr (pyKeyStr (.kInt n)) := by simp
  have hraw : ∀ w : PyVal,
      objGetitem (objSetitem dumps sys r p (.kInt n) w).1 r p (.kInt n) = none := by
    intro w
    rw [objGetitemSet dumps sys r p (.kInt n) (.kInt n) w c t kvs hc ht hs]
    rw [dictGetInsertNe kvs (.kStr (pyKeyStr (.kInt n))) (.kInt n) (inputvalue w) hne]
    exact hAbs
  have hstr : ∀ w : PyVal,
      objGetitem (objSetitem dumps sys r p (.kInt n) w).1 r p
        (.kStr (pyKeyStr (.kInt n))) = some (inputvalue w) := by
    intro w
    rw [objGetitemSet dumps sys r p (.kInt n) (.kStr (pyKeyStr (.kInt n))) w c t
      kvs hc ht hs]
    exact dictGetInsertSelf kvs (.kStr (pyKeyStr (.kInt n))) (inputvalue w)
  have hget0 : objGetitem sys r p (.kInt n) = none := by
    simp only [objGetitem, treeOfCell sys r c hc, ht, hs, hAbs]
  have hset := objSetitemSpec dumps sys r p (.kInt n) d c t kvs hc ht hs
  have hs2 : (objSetitem dumps sys r p (.kInt n) d).2 = none := by
    rw [hset]; simp [ha]
  have hw : (objSetitem dumps sys r p (.kInt n) d).1.fs.writes =
      sys.fs.writes + 1 := by
    rw [hset]; simp [ha]
  have hsd : objSetdefault dumps sys r p (.kInt n) d =
      ((objSetitem dumps sys r p (.kInt n) d).1, some Err.keyError, none) := by
    unfold objSetdefault
    rw [hget0]
    simp only [hs2, hraw d]
  exact ⟨hraw v, hstr v, hsd, hw, hstr d⟩

/-- Concrete instance of C9: on an empty object proxy with autosave,
`setdefault(1, 5)` stores 5 under "1", writes the file once, and raises
`KeyError`; the raw read with integer key 1 misses while "1" hits. -/
theorem C9_witness :
    objGetitem (objSetitem (fun _ => "x") ⟨[.obj []], ⟨[], 0, 0⟩⟩
        ⟨some 0, "a", true⟩ [] (.kInt 1) (.int 5)).1
      ⟨some 0, "a", true⟩ [] (.kInt 1) = none ∧
    objGetitem (objSetitem (fun _ => "x") ⟨[.obj []], ⟨[], 0, 0⟩⟩
        ⟨some 0, "a", true⟩ [] (.kInt 1) (.int 5)).1
      ⟨some 0, "a", true⟩ [] (.kStr "1") = some (.int 5) ∧
    objSetdefault (fun _ => "x") ⟨[.obj []], ⟨[], 0, 0⟩⟩
        ⟨some 0, "a", true⟩ [] (.kInt 1) (.int 5) =
      (⟨[.obj [(.kStr "1", .int 5)]], ⟨[("a", "x")], 1, 1⟩⟩,
        some Err.keyError, none) := by
  have h := C9_getitem_not_stringified (fun _ => "x") ⟨[.obj []], ⟨[], 0, 0⟩⟩
    ⟨some 0, "a", true⟩ [] 1 (.int 5) (.int 5) 0 (.obj []) [] rfl rfl rfl rfl rfl
  exact ⟨h.1, h.2.1, h.2.2.1⟩

/-- Claim C2 fails on the code: with autosave on, assigning `data` a value
structurally equal to the current one (here: the integer 5 over a tree already
holding 5) leaves the tree equal to its pre-mutation value yet still performs
a file write — the write counter goes from 0 to 1.  The module has no dirty
flag and no structural-equality check. -/
theorem C2_counterexample :
    treeOf (setData (fun _ => "5") ⟨[.int 5], ⟨[("a", "5")], 0, 0⟩⟩
        ⟨some 0, "a", true⟩ (.int 5)).1
      (setData (fun _ => "5") ⟨[.int 5], ⟨[("a", "5")], 0, 0⟩⟩
        ⟨some 0, "a", true⟩ (.int 5)).2.1 =
      treeOf ⟨[.int 5], ⟨[("a", "5")], 0, 0⟩⟩ ⟨some 0, "a", true⟩ ∧
    (setData (fun _ => "5") ⟨[.int 5], ⟨[("a", "5")], 0, 0⟩⟩
        ⟨some 0, "a", true⟩ (.int 5)).1.fs.writes = 1 ∧
    (⟨[.int 5], ⟨[("a", "5")], 0, 0⟩⟩ : Sys).fs.writes = 0 :=
  ⟨rfl, rfl, rfl⟩

/-- Claim C2 amended: with autosave enabled, every `data` assignment and every
successful container mutation triggers a save — exactly one file write —
unconditionally, even when the new value is structurally equal to the old one;
the module maintains no dirty flag. -/
theorem C2_amended (dumps : PyVal → String) (sys : Sys) (r : MRoot)
    (ha : r.autosave = true) :
    (∀ v : PyVal, (setData dumps sys r v).1.fs.writes = sys.fs.writes + 1) ∧
    (∀ (p : List Step) (k : PyKey) (v : PyVal) (c : Nat) (t : PyVal)
        (kvs : List (PyKey × PyVal)), r.cell = some c → sys.heap[c]? = some t →
      getSub p t = some (.obj kvs) →
      (objSetitem dumps sys r p k v).2 = none ∧
      (objSetitem dumps sys r p k v).1.fs.writes = sys.fs.writes + 1) := by
  constructor
  · intro v
    unfold setData alloc
    simp only [ha, if_true]
    rw [saveSpec dumps ⟨sys.heap ++ [inputvalue v], sys.fs⟩
      ⟨some sys.heap.length, r.path, true⟩ sys.heap.length (inputvalue v) rfl
      (listGetAppend sys.heap (inputvalue v))]
  · intro p k v c t kvs hc ht hs
    rw [objSetitemSpec dumps sys r p k v c t kvs hc ht hs]
    simp [ha]

/-- Concrete instance of amended C2: assigning `data` and assigning an object
item each perform exactly one write with autosave on. -/
theorem C2_witness :
    (setData (fun _ => "x") ⟨[.int 5], ⟨[], 0, 0⟩⟩ ⟨some 0, "a", true⟩
        .null).1.fs.writes = 1 ∧
    (objSetitem (fun _ => "x") ⟨[.obj []], ⟨[], 0, 0⟩⟩ ⟨some 0, "b", true⟩ []
        (.kStr "k") .null).1.fs.writes = 1 := by
  have h1 := (C2_amended (fun _ => "x") ⟨[.int 5], ⟨[], 0, 0⟩⟩
    ⟨some 0, "a", true⟩ rfl).1 .null
  have h2 := (C2_amended (fun _ => "x") ⟨[.obj []], ⟨[], 0, 0⟩⟩
    ⟨some 0, "b", true⟩ rfl).2 [] (.kStr "k") .null 0 (.obj []) [] rfl rfl rfl
  exact ⟨h1, h2.2⟩

/-- Claim C5 fails on the code at initial construction: `__init__` stores the
supplied value as given (`self._data = data`, no `_inputvalue`), so a mapping
with the integer key 1 is stored un-normalized, different from its normalized
form with string key "1". -/
theorem C5_counterexample :
    init (fun _ => "x") (fun _ => .ok .null) "a" (some 0) false
        ⟨[.obj [(.kInt 1, .int 2)]], ⟨[], 0, 0⟩⟩ =
      .ok (⟨[.obj [(.kInt 1, .int 2)]], ⟨[], 0, 0⟩⟩, ⟨some 0, "a", false⟩) ∧
    treeOf ⟨[.obj [(.kInt 1, .int 2)]], ⟨[], 0, 0⟩⟩ ⟨some 0, "a", false⟩ =
      some (.obj [(.kInt 1, .int 2)]) ∧
    inputvalue (.obj [(.kInt 1, .int 2)]) = .obj [(.kStr "1", .int 2)] ∧
    (PyVal.obj [(.kInt 1, .int 2)]) ≠ .obj [(.kStr "1", .int 2)] := by
  refine ⟨rfl, rfl, rfl, ?_⟩
  simp

/-- Claim C5 amended: normalization via `_inputvalue` is applied at `data`
assignment and at the mutating container operations that route values through
it (object item assignment, append, in-place concatenation, and the like), but
NOT at initial construction — the constructor stores the supplied value as
given — and NOT at array index assignment, which stores the raw value through
the inherited `__setitem__`. -/
theorem C5_amended (dumps : PyVal → String) (loads : String → Except Err PyVal)
    (sys : Sys) (r : MRoot) :
    (∀ v : PyVal, treeOf (setData dumps sys r v).1 (setData dumps sys r v).2.1 =
      some (inputvalue v)) ∧
    (∀ (p : List Step) (k : PyKey) (v : PyVal) (c : Nat) (t : PyVal)
        (kvs : List (PyKey × PyVal)), r.cell = some c → sys.heap[c]? = some t →
      getSub p t = some (.obj kvs) →
      treeOf (objSetitem dumps sys r p k v).1 r =
        some (setSub p t (.obj (dictInsert kvs (.kStr (pyKeyStr k)) (inputvalue v))))) ∧
    (∀ (p : List Step) (v : PyVal) (c : Nat) (t : PyVal) (xs : List PyVal),
      r.cell = some c → sys.heap[c]? = some t → getSub p t = some (.arr xs) →
      treeOf (arrAppend dumps sys r p v).1 r =
        some (setSub p t (.arr (xs ++ [inputvalue v])))) ∧
    (∀ (path : String) (c : Nat) (v : PyVal), sys.heap[c]? = some v →
      init dumps loads path (some c) false sys = .ok (sys, ⟨some c, path, false⟩) ∧
      treeOf sys (⟨some c, path, false⟩ : MRoot) = some v) ∧
    (∀ (p : List Step) (i : Nat) (v : PyVal) (c : Nat) (t : PyVal)
        (xs : List PyVal), r.cell = some c → sys.heap[c]? = some t →
      getSub p t = some (.arr xs) → i < xs.length →
      treeOf (arrSetitem dumps sys r p i v).1 r =
        some (setSub p t (.arr (xs.set i v)))) := by
  refine ⟨?_, ?_, ?_, ?_, ?_⟩
  · intro v
    rw [treeOfCell (setData dumps sys r v).1 (setData dumps sys r v).2.1
      sys.heap.length (by rw [setDataRoot])]
    rw [setDataHeap]
    exact listGetAppend sys.heap (inputvalue v)
  · intro p k v c t kvs hc ht hs
    exact mutateTree dumps sys r p (objSetitemF k v) c t (.obj kvs) _ hc ht hs rfl
  · intro p v c t xs hc ht hs
    exact mutateTree dumps sys r p (appendF v) c t (.arr xs) _ hc ht hs rfl
  · intro path c v hv
    refine ⟨by simp [init], ?_⟩
    rw [treeOfCell sys ⟨some c, path, false⟩ c rfl]
    exact hv
  · intro p i v c t xs hc ht hs hi
    refine mutateTree dumps sys r p (arrSetitemF i v) c t (.arr xs) _ hc ht hs ?_
    simp [arrSetitemF, hi]

/-- Concrete instance of amended C5: `data` assignment normalizes the integer
key to "1", while construction and array index assignment store the raw
value. -/
theorem C5_witness :
    treeOf (setData (fun _ => "x") ⟨[], ⟨[], 0, 0⟩⟩ ⟨none, "a", false⟩
        (.obj [(.kInt 1, .int 2)])).1
      (setData (fun _ => "x") ⟨[], ⟨[], 0, 0⟩⟩ ⟨none, "a", false⟩
        (.obj [(.kInt 1, .int 2)])).2.1 =
      some (.obj [(.kStr "1", .int 2)]) ∧
    treeOf (arrSetitem (fun _ => "x") ⟨[.arr [.null]], ⟨[], 0, 0⟩⟩
        ⟨some 0, "b", false⟩ [] 0 (.obj [(.kInt 1, .int 2)])).1
      ⟨some 0, "b", false⟩ =
      some (.arr [.obj [(.kInt 1, .int 2)]]) := by
  have h := C5_amended (fun _ => "x") (fun _ => .ok .null) ⟨[], ⟨[], 0, 0⟩⟩
    ⟨none, "a", false⟩
  have h2 := (C5_amended (fun _ => "x") (fun _ => .ok .null)
    ⟨[.arr [.null]], ⟨[], 0, 0⟩⟩ ⟨some 0, "b", false⟩).2.2.2.2
    [] 0 (.obj [(.kInt 1, .int 2)]) 0 (.arr [.null]) [.null] rfl rfl rfl
    (by decide)
  exact ⟨h.1 (.obj [(.kInt 1, .int 2)]), h2⟩

/-- Saving a root and then loading through the same root reconstructs the
owned tree, provided the black-box serializer round-trips its value and emits
non-empty text. -/
theorem saveThenLoad (dumps : PyVal → String) (loads : String → Except Err PyVal)
    (sys : Sys) (r : MRoot) (c : Nat) (t : PyVal)
    (hc : r.cell = some c) (ht : sys.heap[c]? = some t)
    (hNE : (dumps t).length ≠ 0) (hRT : loads (dumps t) = .ok t) :
    ∃ (sys2 : Sys) (r2 : MRoot),
      load loads (save dumps sys r).1 r = .ok (sys2, r2) ∧
      treeOf sys2 r2 = some t := by
  rw [saveSpec dumps sys r c t hc ht]
  have hread : fsRead
      ({ sys with
          fs := ⟨fsSet sys.fs.files r.path (dumps t),
                 sys.fs.mkdirs + 1, sys.fs.writes + 1⟩ } : Sys).fs r.path =
      some (dumps t) := fsGetSet sys.fs.files r.path (dumps t)
  unfold load
  rw [hread]
  simp only [Option.isSome_some]
  rw [if_pos ⟨trivial, hNE⟩, hRT]
  refine ⟨_, _, rfl, ?_⟩
  rw [treeOfCell _ _ sys.heap.length rfl]
  exact listGetAppend sys.heap t

/-- Claim C7: for a canonical value (fixed by normalization) that the
black-box serializer round-trips into non-empty text — which `json.dumps` and
`json.load` do for values without exotic floats — setting the root's tree to
it, saving, and then loading yields a tree structurally equal to it. -/
theorem C7_roundtrip (dumps : PyVal → String) (loads : String → Except Err PyVal)
    (sys : Sys) (r : MRoot) (v : PyVal)
    (hV : inputvalue v = v)
    (hNE : (dumps v).length ≠ 0)
    (hRT : loads (dumps v) = .ok v) :
    ∃ (sys2 : Sys) (r2 : MRoot),
      load loads
          (save dumps (setData dumps sys r v).1 (setData dumps sys r v).2.1).1
          (setData dumps sys r v).2.1 = .ok (sys2, r2) ∧
      treeOf sys2 r2 = some v := by
  have hc : (setData dumps sys r v).2.1.cell = some sys.heap.length := by
    rw [setDataRoot]
  have hcell : (setData dumps sys r v).1.heap[sys.heap.length]? = some v := by
    rw [setDataHeap, hV]
    exact listGetAppend sys.heap v
  exact saveThenLoad dumps loads (setData dumps sys r v).1
    (setData dumps sys r v).2.1 sys.heap.length v hc hcell hNE hRT

/-- Concrete instance of C7: with a serializer pair that round-trips the value
3, assign-save-load restores the tree 3. -/
theorem C7_witness :
    ∃ (sys2 : Sys) (r2 : MRoot),
      load (fun _ => .ok (.int 3))
          (save (fun _ => "3")
            (setData (fun _ => "3") ⟨[], ⟨[], 0, 0⟩⟩ ⟨none, "a", false⟩ (.int 3)).1
            (setData (fun _ => "3") ⟨[], ⟨[], 0, 0⟩⟩ ⟨none, "a", false⟩ (.int 3)).2.1).1
          (setData (fun _ => "3") ⟨[], ⟨[], 0, 0⟩⟩ ⟨none, "a", false⟩ (.int 3)).2.1 =
        .ok (sys2, r2) ∧
      treeOf sys2 r2 = some (.int 3) :=
  C7_roundtrip (fun _ => "3") (fun _ => .ok (.int 3)) ⟨[], ⟨[], 0, 0⟩⟩
    ⟨none, "a", false⟩ (.int 3) rfl (by decide) rfl

/-- Claim C1 fails on the code for `extend`: with autosave on, extending an
empty tracked array by an iterable that yields 1 and then raises leaves the
in-memory tree holding the already-consumed element — not equal to its
pre-call state — although the error does propagate and no file write
happens. -/
theorem C1_counterexample :
    arrExtend (fun _ => "x") ⟨[.arr []], ⟨[], 0, 0⟩⟩ ⟨some 0, "a", true⟩ []
        [.ok (.int 1), .error .valueError] =
      (⟨[.arr [.int 1]], ⟨[], 0, 0⟩⟩, some Err.valueError) ∧
    treeOf ⟨[.arr [.int 1]], ⟨[], 0, 0⟩⟩ ⟨some 0, "a", true⟩ =
      some (.arr [.int 1]) ∧
    treeOf ⟨[.arr []], ⟨[], 0, 0⟩⟩ ⟨some 0, "a", true⟩ = some (.arr []) ∧
    (PyVal.arr [.int 1]) ≠ .arr [] := by
  refine ⟨rfl, rfl, rfl, ?_⟩
  simp

/-- CPython `list.extend` over a generator that raises after a prefix of
produced items: the normalized prefix stays appended and the exception
propagates. -/
theorem extendGoPartial : ∀ (pre xs : List PyVal) (e : Err)
    (rest : List (Except Err PyVal)),
    extendGo xs (pre.map Except.ok ++ Except.error e :: rest) =
      (xs ++ inputvalueList pre, some e)
  | [], xs, e, rest => by simp [extendGo, inputvalueList]
  | v :: pre, xs, e, rest => by
    simp [extendGo, inputvalueList, extendGoPartial pre (xs ++ [inputvalue v]) e rest]

/-- Claim C1 amended: when the underlying container operation of a mutating
proxy method raises, the error is propagated and no file write occurs; for
operations that fail without partial effect (deleting a missing key) the
in-memory tree is exactly its pre-call state, but `extend` with an iterable
that raises mid-iteration leaves the elements consumed before the failure
appended to the live subtree — there is no rollback. -/
theorem C1_amended (dumps : PyVal → String) (sys : Sys) (r : MRoot)
    (p : List Step) (c : Nat) (t : PyVal) (hc : r.cell = some c)
    (ht : sys.heap[c]? = some t) :
    (∀ (kvs : List (PyKey × PyVal)) (k : PyKey),
      getSub p t = some (.obj kvs) → dictGet kvs k = none →
      objDelitem dumps sys r p k = (sys, some Err.keyError)) ∧
    (∀ (xs pre : List PyVal) (e : Err) (rest : List (Except Err PyVal)),
      getSub p t = some (.arr xs) →
      arrExtend dumps sys r p (pre.map Except.ok ++ Except.error e :: rest) =
        (⟨sys.heap.set c (setSub p t (.arr (xs ++ inputvalueList pre))), sys.fs⟩,
          some e)) := by
  constructor
  · intro kvs k hs hMiss
    refine mutateRaise dumps sys r p (objDelitemF k) c t (.obj kvs)
      Err.keyError hc ht hs ?_
    simp [objDelitemF, hMiss]
  · intro xs pre e rest hs
    have hf : extendF (pre.map Except.ok ++ Except.error e :: rest) (.arr xs) =
        (.arr (xs ++ inputvalueList pre), some e) := by
      simp [extendF, extendGoPartial pre xs e rest]
    unfold arrExtend
    rw [mutateSpec dumps sys r p
      (extendF (pre.map Except.ok ++ Except.error e :: rest)) c t (.arr xs)
      hc ht hs, hf]

/-- Concrete instance of amended C1: deleting a missing key from an object
proxy raises `KeyError` with the world untouched; extending past a failing
iterable keeps the consumed prefix with no write. -/
theorem C1_witness :
    objDelitem (fun _ => "x") ⟨[.obj []], ⟨[], 0, 0⟩⟩ ⟨some 0, "a", true⟩ []
        (.kStr "k") = (⟨[.obj []], ⟨[], 0, 0⟩⟩, some Err.keyError) ∧
    arrExtend (fun _ => "x") ⟨[.arr [.int 9]], ⟨[], 0, 0⟩⟩ ⟨some 0, "b", true⟩ []
        [.ok (.int 1), .error .typeError] =
      (⟨[.arr [.int 9, .int 1]], ⟨[], 0, 0⟩⟩, some Err.typeError) := by
  have h1 := (C1_amended (fun _ => "x") ⟨[.obj []], ⟨[], 0, 0⟩⟩
    ⟨some 0, "a", true⟩ [] 0 (.obj []) rfl rfl).1 [] (.kStr "k") rfl rfl
  have h2 := (C1_amended (fun _ => "x") ⟨[.arr [.int 9]], ⟨[], 0, 0⟩⟩
    ⟨some 0, "b", true⟩ [] 0 (.arr [.int 9]) rfl rfl).2 [.int 9] [.int 1]
    .typeError [] rfl
  exact ⟨h1, h2⟩

/-- Claim C4 fails on the code: `copy` passes `data=self._data` and `__init__`
stores that reference, so the two roots share the same object.  Concretely:
after copying a root owning the list holding 1 to path "b", appending 2
through the copy changes the tree seen through the original handle from
the one-element list to the two-element list. -/
theorem C4_counterexample :
    copy (fun _ => "x") (fun _ => .ok .null) ⟨[.arr [.int 1]], ⟨[], 0, 0⟩⟩
        ⟨some 0, "a", false⟩ "b" none =
      .ok (⟨[.arr [.int 1]], ⟨[], 0, 0⟩⟩, ⟨some 0, "b", false⟩) ∧
    arrAppend (fun _ => "x") ⟨[.arr [.int 1]], ⟨[], 0, 0⟩⟩ ⟨some 0, "b", false⟩
        [] (.int 2) =
      (⟨[.arr [.int 1, .int 2]], ⟨[], 0, 0⟩⟩, none) ∧
    treeOf ⟨[.arr [.int 1, .int 2]], ⟨[], 0, 0⟩⟩ ⟨some 0, "a", false⟩ =
      some (.arr [.int 1, .int 2]) ∧
    treeOf ⟨[.arr [.int 1]], ⟨[], 0, 0⟩⟩ ⟨some 0, "a", false⟩ =
      some (.arr [.int 1]) ∧
    (PyVal.arr [.int 1, .int 2]) ≠ .arr [.int 1] := by
  refine ⟨rfl, rfl, rfl, rfl, ?_⟩
  simp

/-- Claim C4 amended: `copy(newPath)` returns a new root over the different
path with the requested autosave configuration, seeded with the SAME object
reference as the original root's tree (the heap is unchanged — no deep copy is
made), so the two handles permanently view one shared tree: in every
subsequent world state they dereference to the same value. -/
theorem C4_amended (dumps : PyVal → String) (loads : String → Except Err PyVal)
    (sys : Sys) (r : MRoot) (path : String) (asArg : Option Bool) (c : Nat)
    (t : PyVal) (hne : path ≠ r.path) (hc : r.cell = some c)
    (ht : sys.heap[c]? = some t) :
    ∃ sys2 : Sys,
      copy dumps loads sys r path asArg =
        .ok (sys2, ⟨some c, path, asArg.getD r.autosave⟩) ∧
      sys2.heap = sys.heap ∧
      ∀ sys3 : Sys, treeOf sys3 (⟨some c, path, asArg.getD r.autosave⟩ : MRoot) =
        treeOf sys3 r := by
  unfold copy
  rw [if_neg hne]
  unfold init
  rw [hc]
  by_cases has : asArg.getD r.autosave
  · simp only [has, if_true]
    rw [saveSpec dumps sys ⟨some c, path, true⟩ c t rfl ht]
    refine ⟨_, rfl, rfl, ?_⟩
    intro sys3
    unfold treeOf
    rw [hc]
  · simp only [has, if_false]
    refine ⟨sys, rfl, rfl, ?_⟩
    intro sys3
    unfold treeOf
    rw [hc]

/-- Concrete instance of amended C4: copying a root with data to "b" yields a
root over "b" aliasing the same heap cell. -/
theorem C4_witness :
    ∃ sys2 : Sys,
      copy (fun _ => "x") (fun _ => .ok .null) ⟨[.int 5], ⟨[], 0, 0⟩⟩
          ⟨some 0, "a", false⟩ "b" none =
        .ok (sys2, ⟨some 0, "b", false⟩) ∧
      sys2.heap = [.int 5] ∧
      ∀ sys3 : Sys, treeOf sys3 (⟨some 0, "b", false⟩ : MRoot) =
        treeOf sys3 ⟨some 0, "a", false⟩ :=
  C4_amended (fun _ => "x") (fun _ => .ok .null) ⟨[.int 5], ⟨[], 0, 0⟩⟩
    ⟨some 0, "a", false⟩ "b" none 0 (.int 5) (by decide) rfl rfl

end Jsonfile
